import Mathlib

/-!
Verification of the spool-and-upload subsystem of `arec_p.py`.

The program manages a working directory (`OUTPUT_DIR`) holding in-progress
recordings and a queue subdirectory (`PENDING_DIR`, the Spool Store) holding
finished audio segments awaiting upload.  We model directories as lists of
file entries (name, size in bytes, modification time) and translate the
relevant Python functions into pure Lean functions.  Python's stable
`sorted` is modelled by `List.insertionSort`, which is also stable, so the
two agree extensionally on every input.
-/

namespace ArecP

/-! Configuration constants, from the configuration block of `arec_p.py`. -/

def RETRY_DELAY : Nat := 300

def MAX_RETRIES : Nat := 15

def SLOW_NETWORK_RETRY_DELAY : Nat := 600

def SLOW_NETWORK_MAX_RETRIES : Nat := 5

def MAX_STORAGE_MB : Nat := 40960

def MAX_PARALLEL_UPLOADS : Nat := 3

def DELETE_AFTER_UPLOAD : Bool := true

def RECORDING_START_HOUR : Nat := 6

def RECORDING_END_HOUR : Nat := 22

/-- Entry of a directory: file name, size in bytes, POSIX modification time. -/
structure FileEntry where
  name : String
  size : Nat
  mtime : Nat
deriving DecidableEq, Repr

/-- Does a file name match the glob `f"{FILE_PREF}_*.{AUDIO_FORMAT}"`,
i.e. `REC_*.opus` with the configured values?  The glob matches exactly the
names of the form `REC_` ++ anything ++ `.opus`. -/
def matchesSeg (name : String) : Bool :=
  "REC_".toList.isPrefixOf name.toList && ".opus".toList.isSuffixOf name.toList
    && 9 ≤ name.length

/-- Does a file name match the glob `*.recording` (an in-progress marker)? -/
def matchesMarker (name : String) : Bool :=
  ".recording".toList.isSuffixOf name.toList

/-- Model of `dir_size_mb`: sum of the sizes of all files in the directory
(`rglob('*')`, every file regardless of name), floor-divided by 2^20. -/
def dir_size_mb (d : List FileEntry) : Nat :=
  (d.map (fun f => f.size)).sum / (1024 * 1024)

/-- Deletion of the file with the given name (`Path.unlink`): removes the
first (in a real directory: the unique) entry carrying that name. -/
def eraseName (n : String) (d : List FileEntry) : List FileEntry :=
  d.eraseP (fun g => g.name == n)

/-- Ascending modification-time order, as a relation for sorting. -/
def mtimeLE (a b : FileEntry) : Prop := a.mtime ≤ b.mtime

instance : DecidableRel mtimeLE := fun a b => Nat.decLe a.mtime b.mtime

instance : IsTotal FileEntry mtimeLE := ⟨fun a b => Nat.le_total a.mtime b.mtime⟩

instance : IsTrans FileEntry mtimeLE := ⟨fun _ _ _ h1 h2 => Nat.le_trans h1 h2⟩

/-- Descending modification-time order (`sorted(..., reverse=True)`). -/
def mtimeGE (a b : FileEntry) : Prop := b.mtime ≤ a.mtime

instance : DecidableRel mtimeGE := fun a b => Nat.decLe b.mtime a.mtime

/-- Model of `sorted(files, key=lambda x: x.stat().st_mtime)`: a stable sort
by ascending mtime. -/
def sortByMtime (l : List FileEntry) : List FileEntry :=
  List.insertionSort mtimeLE l

/-- Model of `sorted(files, key=..., reverse=True)`: a stable sort by
descending mtime. -/
def sortByMtimeDesc (l : List FileEntry) : List FileEntry :=
  List.insertionSort mtimeGE l

/-- Eviction loop of `check_and_cleanup_storage` (and of the identical inline
loop in `process_upload_queue`): walk the mtime-sorted list of matching
files; before each deletion re-check the directory size and stop as soon as
it is at or under the budget, otherwise unlink the file. -/
def evictLoop (budget : Nat) : List FileEntry → List FileEntry → List FileEntry
  | pend, [] => pend
  | pend, f :: rest =>
    if dir_size_mb pend ≤ budget then pend
    else evictLoop budget (eraseName f.name pend) rest

/-- Model of `check_and_cleanup_storage`: if the pending directory size
exceeds the budget (`MAX_STORAGE_MB` in production; the budget is a
parameter here), delete matching files oldest-first until compliant. -/
def check_and_cleanup_storage (budget : Nat) (pend : List FileEntry) : List FileEntry :=
  if budget < dir_size_mb pend then
    evictLoop budget pend (sortByMtime (pend.filter (fun f => matchesSeg f.name)))
  else pend

/-! Basic lemmas about `eraseName` and the eviction loop. -/

theorem eraseName_sublist (n : String) (d : List FileEntry) :
    (eraseName n d).Sublist d :=
  List.eraseP_sublist d

theorem mem_of_mem_eraseName {n : String} {d : List FileEntry} {g : FileEntry}
    (h : g ∈ eraseName n d) : g ∈ d :=
  List.mem_of_mem_eraseP h

theorem nodup_names_eraseName {n : String} {d : List FileEntry}
    (h : (d.map FileEntry.name).Nodup) : ((eraseName n d).map FileEntry.name).Nodup :=
  List.Nodup.sublist (List.Sublist.map FileEntry.name (eraseName_sublist n d)) h

/-- In a directory with pairwise-distinct names, no survivor of
`eraseName n` carries the name `n`. -/
theorem name_ne_of_mem_eraseName {n : String} {d : List FileEntry}
    (hnd : (d.map FileEntry.name).Nodup) {g : FileEntry}
    (hg : g ∈ eraseName n d) : g.name ≠ n := by
  induction d with
  | nil => simp [eraseName] at hg
  | cons a t ih =>
    rw [List.map_cons, List.nodup_cons] at hnd
    by_cases ha : a.name = n
    · have : eraseName n (a :: t) = t := by
        simp [eraseName, List.eraseP_cons, ha]
      rw [this] at hg
      intro hgn
      apply hnd.1
      have hmem : g.name ∈ t.map FileEntry.name := List.mem_map_of_mem FileEntry.name hg
      rwa [hgn, ← ha] at hmem
    · have : eraseName n (a :: t) = a :: eraseName n t := by
        simp [eraseName, List.eraseP_cons, ha]
      rw [this] at hg
      rcases List.mem_cons.mp hg with hga | hgt
      · exact hga ▸ ha
      · exact ih hnd.2 hgt

/-- An element that does not carry the erased name survives `eraseName`. -/
theorem mem_eraseName_of_ne {n : String} {d : List FileEntry} {g : FileEntry}
    (hg : g ∈ d) (hne : g.name ≠ n) : g ∈ eraseName n d := by
  induction d with
  | nil => simp at hg
  | cons a t ih =>
    by_cases ha : a.name = n
    · have : eraseName n (a :: t) = t := by
        simp [eraseName, List.eraseP_cons, ha]
      rw [this]
      rcases List.mem_cons.mp hg with hga | hgt
      · exact absurd (hga ▸ ha) hne
      · exact hgt
    · have : eraseName n (a :: t) = a :: eraseName n t := by
        simp [eraseName, List.eraseP_cons, ha]
      rw [this]
      rcases List.mem_cons.mp hg with hga | hgt
      · exact hga ▸ List.mem_cons_self a _
      · exact List.mem_cons_of_mem a (ih hgt)

/-- An element of `d` missing from `eraseName n d` carried the name `n`. -/
theorem name_eq_of_not_mem_eraseName {n : String} {d : List FileEntry} {g : FileEntry}
    (hg : g ∈ d) (hout : g ∉ eraseName n d) : g.name = n := by
  by_contra hne
  exact hout (mem_eraseName_of_ne hg hne)

theorem evictLoop_sublist (budget : Nat) (fs : List FileEntry) :
    ∀ pend, (evictLoop budget pend fs).Sublist pend := by
  induction fs with
  | nil => intro pend; exact List.Sublist.refl pend
  | cons f rest ih =>
    intro pend
    rw [evictLoop]
    by_cases h : dir_size_mb pend ≤ budget
    · rw [if_pos h]
    · rw [if_neg h]
      exact (ih (eraseName f.name pend)).trans (eraseName_sublist f.name pend)

/-- Core invariant of the eviction loop: if the to-delete list covers the
names of every matching file still present, then afterwards either the
directory is within budget or no matching file is left. -/
theorem evictLoop_spec (budget : Nat) (fs : List FileEntry) :
    ∀ pend, (pend.map FileEntry.name).Nodup →
    (∀ g ∈ pend, matchesSeg g.name → g.name ∈ fs.map FileEntry.name) →
    dir_size_mb (evictLoop budget pend fs) ≤ budget ∨
      (evictLoop budget pend fs).filter (fun f => matchesSeg f.name) = [] := by
  induction fs with
  | nil =>
    intro pend _ hcov
    right
    rw [evictLoop]
    exact List.filter_eq_nil_iff.mpr (fun g hg hm => by simpa using hcov g hg hm)
  | cons f rest ih =>
    intro pend hnd hcov
    rw [evictLoop]
    by_cases h : dir_size_mb pend ≤ budget
    · rw [if_pos h]
      exact Or.inl h
    · rw [if_neg h]
      refine ih (eraseName f.name pend) (nodup_names_eraseName hnd) ?_
      intro g hg hm
      have hgp : g ∈ pend := mem_of_mem_eraseName hg
      have := hcov g hgp hm
      rw [List.map_cons, List.mem_cons] at this
      rcases this with hf | hrest
      · exact absurd hf (name_ne_of_mem_eraseName hnd hg)
      · exact hrest

/-- C1.  Quota invariant of the Storage Guard: for every budget and every
initial content of the queue directory (with the directory invariant that
names are pairwise distinct), after `check_and_cleanup_storage` returns,
either the total size of the queue directory is at most the budget or the
Spool Store — the set of files matching the segment naming pattern — is
empty. -/
theorem storage_quota_invariant (budget : Nat) (pend : List FileEntry)
    (hnd : (pend.map FileEntry.name).Nodup) :
    dir_size_mb (check_and_cleanup_storage budget pend) ≤ budget ∨
      (check_and_cleanup_storage budget pend).filter (fun f => matchesSeg f.name) = [] := by
  rw [check_and_cleanup_storage]
  by_cases h : budget < dir_size_mb pend
  · rw [if_pos h]
    refine evictLoop_spec budget _ pend hnd ?_
    intro g hg hm
    have : g ∈ sortByMtime (pend.filter (fun f => matchesSeg f.name)) := by
      rw [sortByMtime, List.mem_insertionSort]
      exact List.mem_filter.mpr ⟨hg, hm⟩
    exact List.mem_map_of_mem FileEntry.name this
  · rw [if_neg h]
    exact Or.inl (Nat.le_of_not_lt h)

/-! Lemmas on directory sizes and on what eviction can and cannot delete. -/

theorem dir_size_mb_mono {l1 l2 : List FileEntry} (h : l1.Sublist l2) :
    dir_size_mb l1 ≤ dir_size_mb l2 :=
  Nat.div_le_div_right
    (List.Sublist.sum_le_sum (List.Sublist.map (fun f => f.size) h)
      (fun a _ => Nat.zero_le a))

/-- Erasing a matching name does not change the non-matching entries. -/
theorem filter_not_matches_eraseName {n : String} (hmn : matchesSeg n = true)
    (d : List FileEntry) :
    (eraseName n d).filter (fun f => !matchesSeg f.name) =
      d.filter (fun f => !matchesSeg f.name) := by
  induction d with
  | nil => rfl
  | cons a t ih =>
    by_cases ha : a.name = n
    · have he : eraseName n (a :: t) = t := by
        simp [eraseName, List.eraseP_cons, ha]
      have hma : matchesSeg a.name = true := ha ▸ hmn
      rw [he, List.filter_cons, hma]
      simp
    · have he : eraseName n (a :: t) = a :: eraseName n t := by
        simp [eraseName, List.eraseP_cons, ha]
      rw [he, List.filter_cons, List.filter_cons, ih]

/-- The eviction loop (which only unlinks names of matching files) leaves
the non-matching entries of the directory untouched. -/
theorem evictLoop_filter_not_matches (budget : Nat) (fs : List FileEntry) :
    ∀ pend, (∀ f ∈ fs, matchesSeg f.name = true) →
    (evictLoop budget pend fs).filter (fun f => !matchesSeg f.name) =
      pend.filter (fun f => !matchesSeg f.name) := by
  induction fs with
  | nil => intro pend _; rfl
  | cons f rest ih =>
    intro pend hmat
    rw [evictLoop]
    by_cases h : dir_size_mb pend ≤ budget
    · rw [if_pos h]
    · rw [if_neg h]
      rw [ih (eraseName f.name pend) (fun g hg => hmat g (List.mem_cons_of_mem f hg))]
      exact filter_not_matches_eraseName (hmat f (List.mem_cons_self f rest)) pend

/-- C9.  The Storage Guard measures the whole queue directory but evicts
only files matching the segment naming pattern: whenever the non-matching
files by themselves already exceed the budget, `check_and_cleanup_storage`
deletes every matching segment and returns with the directory still over
budget and non-empty. -/
theorem eviction_ignores_nonmatching_overflow (budget : Nat) (pend : List FileEntry)
    (hnd : (pend.map FileEntry.name).Nodup)
    (hover : budget < dir_size_mb (pend.filter (fun f => !matchesSeg f.name))) :
    (check_and_cleanup_storage budget pend).filter (fun f => matchesSeg f.name) = [] ∧
    budget < dir_size_mb (check_and_cleanup_storage budget pend) ∧
    check_and_cleanup_storage budget pend ≠ [] := by
  have hsz : budget < dir_size_mb pend :=
    Nat.lt_of_lt_of_le hover (dir_size_mb_mono (List.filter_sublist pend))
  have hmatfs : ∀ f ∈ sortByMtime (pend.filter (fun f => matchesSeg f.name)),
      matchesSeg f.name = true := by
    intro f hf
    rw [sortByMtime, List.mem_insertionSort] at hf
    exact (List.mem_filter.mp hf).2
  have hcov : ∀ g ∈ pend, matchesSeg g.name = true →
      g.name ∈ (sortByMtime (pend.filter (fun f => matchesSeg f.name))).map FileEntry.name := by
    intro g hg hm
    refine List.mem_map_of_mem FileEntry.name ?_
    rw [sortByMtime, List.mem_insertionSort]
    exact List.mem_filter.mpr ⟨hg, hm⟩
  rw [check_and_cleanup_storage, if_pos hsz]
  set r := evictLoop budget pend (sortByMtime (pend.filter (fun f => matchesSeg f.name)))
    with hr
  have hkeep : r.filter (fun f => !matchesSeg f.name) =
      pend.filter (fun f => !matchesSeg f.name) :=
    evictLoop_filter_not_matches budget _ pend hmatfs
  have hr_over : budget < dir_size_mb r := by
    refine Nat.lt_of_lt_of_le hover ?_
    rw [← hkeep]
    exact dir_size_mb_mono (List.filter_sublist r)
  refine ⟨?_, hr_over, ?_⟩
  · rcases evictLoop_spec budget _ pend hnd hcov with hle | hnil
    · exact absurd hle (Nat.not_le_of_lt hr_over)
    · exact hnil
  · intro hnil
    rw [hnil] at hr_over
    simp [dir_size_mb] at hr_over

/-! Lemmas for the eviction-order property. -/

/-- In a directory with pairwise-distinct names, the name determines the
entry. -/
theorem eq_of_name_eq {l : List FileEntry} (hnd : (l.map FileEntry.name).Nodup)
    {a b : FileEntry} (ha : a ∈ l) (hb : b ∈ l) (hab : a.name = b.name) : a = b := by
  induction l with
  | nil => simp at ha
  | cons x t ih =>
    rw [List.map_cons, List.nodup_cons] at hnd
    rcases List.mem_cons.mp ha with rfl | hat
    · rcases List.mem_cons.mp hb with rfl | hbt
      · rfl
      · have hmem := List.mem_map_of_mem FileEntry.name hbt
        rw [← hab] at hmem
        exact absurd hmem hnd.1
    · rcases List.mem_cons.mp hb with rfl | hbt
      · have hmem := List.mem_map_of_mem FileEntry.name hat
        rw [hab] at hmem
        exact absurd hmem hnd.1
      · exact ih hnd.2 hat hbt

/-- A file deleted by the eviction loop carries the name of one of the
listed candidate files. -/
theorem name_of_evictLoop_deleted (budget : Nat) (fs : List FileEntry) :
    ∀ pend, ∀ g ∈ pend, g ∉ evictLoop budget pend fs →
    ∃ f ∈ fs, g.name = f.name := by
  induction fs with
  | nil =>
    intro pend g hg hout
    rw [evictLoop] at hout
    exact absurd hg hout
  | cons f rest ih =>
    intro pend g hg hout
    rw [evictLoop] at hout
    by_cases h : dir_size_mb pend ≤ budget
    · rw [if_pos h] at hout
      exact absurd hg hout
    · rw [if_neg h] at hout
      by_cases hgp : g ∈ eraseName f.name pend
      · obtain ⟨f', hf', he⟩ := ih (eraseName f.name pend) g hgp hout
        exact ⟨f', List.mem_cons_of_mem f hf', he⟩
      · exact ⟨f, List.mem_cons_self f rest, name_eq_of_not_mem_eraseName hg hgp⟩

/-- Oldest-first order of the eviction loop: provided the candidate list is
sorted by ascending mtime, lists exactly the matching files of the
directory, and names are unique, every deleted file is at least as old as
every matching survivor. -/
theorem evictLoop_oldest_first (budget : Nat) (fs : List FileEntry) :
    ∀ pend, (pend.map FileEntry.name).Nodup →
    (fs.map FileEntry.name).Nodup →
    fs.Pairwise mtimeLE →
    (∀ f ∈ fs, f ∈ pend) →
    (∀ h ∈ pend, matchesSeg h.name = true → h.name ∈ fs.map FileEntry.name) →
    ∀ g ∈ pend, g ∉ evictLoop budget pend fs →
    ∀ h ∈ evictLoop budget pend fs, matchesSeg h.name = true →
    g.mtime ≤ h.mtime := by
  induction fs with
  | nil =>
    intro pend _ _ _ _ _ g hg hout
    rw [evictLoop] at hout
    exact absurd hg hout
  | cons f rest ih =>
    intro pend hnd hndfs hsort hsub hcov g hg hout h hh hhm
    rw [evictLoop] at hout hh
    by_cases hb : dir_size_mb pend ≤ budget
    · rw [if_pos hb] at hout
      exact absurd hg hout
    · rw [if_neg hb] at hout hh
      rw [List.map_cons, List.nodup_cons] at hndfs
      rw [List.pairwise_cons] at hsort
      have hsub' : ∀ f' ∈ rest, f' ∈ eraseName f.name pend := by
        intro f' hf'
        refine mem_eraseName_of_ne (hsub f' (List.mem_cons_of_mem f hf')) ?_
        intro hne
        exact hndfs.1 (hne ▸ List.mem_map_of_mem FileEntry.name hf')
      have hcov' : ∀ h' ∈ eraseName f.name pend, matchesSeg h'.name = true →
          h'.name ∈ rest.map FileEntry.name := by
        intro h' hh' hm'
        have := hcov h' (mem_of_mem_eraseName hh') hm'
        rw [List.map_cons, List.mem_cons] at this
        rcases this with heq | hmem
        · exact absurd heq (name_ne_of_mem_eraseName hnd hh')
        · exact hmem
      by_cases hgp : g ∈ eraseName f.name pend
      · exact ih (eraseName f.name pend) (nodup_names_eraseName hnd) hndfs.2
          hsort.2 hsub' hcov' g hgp hout h hh hhm
      · have hgname : g.name = f.name := name_eq_of_not_mem_eraseName hg hgp
        have hfp : f ∈ pend := hsub f (List.mem_cons_self f rest)
        have hgf : g = f := eq_of_name_eq hnd hg hfp hgname
        have hh' : h ∈ eraseName f.name pend :=
          (evictLoop_sublist budget rest (eraseName f.name pend)).subset hh
        obtain ⟨f', hf', hfname⟩ := List.mem_map.mp (hcov' h hh' hhm)
        have hf'h : f' = h :=
          eq_of_name_eq hnd (hsub f' (List.mem_cons_of_mem f hf'))
            (mem_of_mem_eraseName hh') hfname
        rw [hgf]
        exact hsort.1 h (hf'h ▸ hf')

/-- C2.  Eviction order of the Storage Guard.  First conjunct (general):
whenever enforcement deletes a file, the deleted file matches the segment
pattern and is no newer than any matching file that survives — deletions
proceed oldest-first and stop as soon as the store is compliant, so no
survivor is older than a victim.  Second conjunct (scenario): for three
enrolled segments of 10 MB each under a 25 MB budget, enforcement deletes
exactly the oldest segment, leaving 20 MB. -/
theorem eviction_order_and_scenario :
    (∀ budget pend, (pend.map FileEntry.name).Nodup →
      ∀ g ∈ pend, g ∉ check_and_cleanup_storage budget pend →
        matchesSeg g.name = true ∧
        ∀ h ∈ check_and_cleanup_storage budget pend, matchesSeg h.name = true →
          g.mtime ≤ h.mtime) ∧
    (∀ n1 n2 n3 t1 t2 t3, matchesSeg n1 = true → matchesSeg n2 = true →
      matchesSeg n3 = true → t1 < t2 → t2 < t3 →
      check_and_cleanup_storage 25
        [⟨n1, 10 * 1024 * 1024, t1⟩, ⟨n2, 10 * 1024 * 1024, t2⟩,
          ⟨n3, 10 * 1024 * 1024, t3⟩] =
        [⟨n2, 10 * 1024 * 1024, t2⟩, ⟨n3, 10 * 1024 * 1024, t3⟩] ∧
      dir_size_mb [⟨n2, 10 * 1024 * 1024, t2⟩, ⟨n3, 10 * 1024 * 1024, t3⟩] = 20) := by
  constructor
  · intro budget pend hnd g hg hout
    rw [check_and_cleanup_storage] at hout ⊢
    by_cases hsz : budget < dir_size_mb pend
    · rw [if_pos hsz] at hout ⊢
      set fs := sortByMtime (pend.filter (fun f => matchesSeg f.name)) with hfs
      have hperm : fs.Perm (pend.filter (fun f => matchesSeg f.name)) :=
        List.perm_insertionSort mtimeLE _
      have hndfs : (fs.map FileEntry.name).Nodup := by
        refine (List.Perm.nodup_iff (List.Perm.map FileEntry.name hperm)).mpr ?_
        exact List.Nodup.sublist
          (List.Sublist.map FileEntry.name (List.filter_sublist pend)) hnd
      have hsort : fs.Pairwise mtimeLE := List.sorted_insertionSort mtimeLE _
      have hsub : ∀ f ∈ fs, f ∈ pend := by
        intro f hf
        rw [hfs, sortByMtime, List.mem_insertionSort] at hf
        exact (List.mem_filter.mp hf).1
      have hcov : ∀ h ∈ pend, matchesSeg h.name = true →
          h.name ∈ fs.map FileEntry.name := by
        intro h hh hm
        refine List.mem_map_of_mem FileEntry.name ?_
        rw [hfs, sortByMtime, List.mem_insertionSort]
        exact List.mem_filter.mpr ⟨hh, hm⟩
      constructor
      · obtain ⟨f, hf, he⟩ := name_of_evictLoop_deleted budget fs pend g hg hout
        have : matchesSeg f.name = true := by
          rw [hfs, sortByMtime, List.mem_insertionSort] at hf
          exact (List.mem_filter.mp hf).2
        rw [he]
        exact this
      · intro h hh hhm
        exact evictLoop_oldest_first budget fs pend hnd hndfs hsort hsub hcov
          g hg hout h hh hhm
    · rw [if_neg hsz] at hout
      exact absurd hg hout
  · intro n1 n2 n3 t1 t2 t3 hm1 hm2 hm3 h12 h23
    have hsz : dir_size_mb [⟨n1, 10 * 1024 * 1024, t1⟩, ⟨n2, 10 * 1024 * 1024, t2⟩,
        ⟨n3, 10 * 1024 * 1024, t3⟩] = 30 := by
      norm_num [dir_size_mb]
    have hsz2 : dir_size_mb [⟨n2, 10 * 1024 * 1024, t2⟩, ⟨n3, 10 * 1024 * 1024, t3⟩]
        = 20 := by
      norm_num [dir_size_mb]
    refine ⟨?_, hsz2⟩
    rw [check_and_cleanup_storage, if_pos (by rw [hsz]; exact (by decide : (25:Nat) < 30))]
    have hfilter : ([⟨n1, 10 * 1024 * 1024, t1⟩, ⟨n2, 10 * 1024 * 1024, t2⟩,
        ⟨n3, 10 * 1024 * 1024, t3⟩] : List FileEntry).filter (fun f => matchesSeg f.name) =
        [⟨n1, 10 * 1024 * 1024, t1⟩, ⟨n2, 10 * 1024 * 1024, t2⟩,
          ⟨n3, 10 * 1024 * 1024, t3⟩] := by
      simp [List.filter_cons, hm1, hm2, hm3]
    rw [hfilter]
    have hsorted : sortByMtime [⟨n1, 10 * 1024 * 1024, t1⟩, ⟨n2, 10 * 1024 * 1024, t2⟩,
        ⟨n3, 10 * 1024 * 1024, t3⟩] =
        [⟨n1, 10 * 1024 * 1024, t1⟩, ⟨n2, 10 * 1024 * 1024, t2⟩,
          ⟨n3, 10 * 1024 * 1024, t3⟩] := by
      refine List.Sorted.insertionSort_eq ?_
      refine List.pairwise_cons.mpr ⟨?_, List.pairwise_cons.mpr ⟨?_, List.pairwise_singleton _ _⟩⟩
      · intro b hb
        rcases List.mem_cons.mp hb with rfl | hb
        · exact Nat.le_of_lt h12
        · rw [List.mem_singleton] at hb
          rw [hb]
          exact Nat.le_of_lt (Nat.lt_trans h12 h23)
      · intro b hb
        rw [List.mem_singleton] at hb
        rw [hb]
        exact Nat.le_of_lt h23
    rw [hsorted, evictLoop, if_neg (by rw [hsz]; decide), evictLoop]
    have herase : eraseName n1 [⟨n1, 10 * 1024 * 1024, t1⟩, ⟨n2, 10 * 1024 * 1024, t2⟩,
        ⟨n3, 10 * 1024 * 1024, t3⟩] =
        [⟨n2, 10 * 1024 * 1024, t2⟩, ⟨n3, 10 * 1024 * 1024, t3⟩] := by
      simp [eraseName, List.eraseP_cons]
    rw [herase, if_pos (by rw [hsz2]; decide)]

/-- Witness for C2:  the scenario instantiated with concrete names and
mtimes (and the general conjunct at a concrete deleted/surviving pair). -/
theorem eviction_order_and_scenario_witness :
    check_and_cleanup_storage 25
      [⟨"REC_1.opus", 10 * 1024 * 1024, 1⟩, ⟨"REC_2.opus", 10 * 1024 * 1024, 2⟩,
        ⟨"REC_3.opus", 10 * 1024 * 1024, 3⟩] =
      [⟨"REC_2.opus", 10 * 1024 * 1024, 2⟩, ⟨"REC_3.opus", 10 * 1024 * 1024, 3⟩] ∧
    dir_size_mb [⟨"REC_2.opus", 10 * 1024 * 1024, 2⟩,
      ⟨"REC_3.opus", 10 * 1024 * 1024, 3⟩] = 20 :=
  eviction_order_and_scenario.2 "REC_1.opus" "REC_2.opus" "REC_3.opus" 1 2 3
    (by decide) (by decide) (by decide) (by decide) (by decide)

/-- Witness for C9: 3 MB of non-matching junk alone exceed a 1 MB budget. -/
theorem eviction_ignores_nonmatching_overflow_witness :
    ((([⟨"junk.txt", 3 * 1024 * 1024, 1⟩, ⟨"REC_a.opus", 2048, 2⟩] :
        List FileEntry).map FileEntry.name).Nodup) ∧
    (1 < dir_size_mb (([⟨"junk.txt", 3 * 1024 * 1024, 1⟩, ⟨"REC_a.opus", 2048, 2⟩] :
        List FileEntry).filter (fun f => !matchesSeg f.name))) ∧
    ((check_and_cleanup_storage 1
        [⟨"junk.txt", 3 * 1024 * 1024, 1⟩, ⟨"REC_a.opus", 2048, 2⟩]).filter
          (fun f => matchesSeg f.name) = [] ∧
      1 < dir_size_mb (check_and_cleanup_storage 1
        [⟨"junk.txt", 3 * 1024 * 1024, 1⟩, ⟨"REC_a.opus", 2048, 2⟩]) ∧
      check_and_cleanup_storage 1
        [⟨"junk.txt", 3 * 1024 * 1024, 1⟩, ⟨"REC_a.opus", 2048, 2⟩] ≠ []) :=
  ⟨by decide, by decide,
    eviction_ignores_nonmatching_overflow 1 _ (by decide) (by decide)⟩

/-- Witness for C1 at a concrete over-budget store. -/
theorem storage_quota_invariant_witness :
    ((([⟨"REC_a.opus", 3 * 1024 * 1024, 1⟩, ⟨"REC_b.opus", 2 * 1024 * 1024, 2⟩] :
        List FileEntry).map FileEntry.name).Nodup) ∧
    (dir_size_mb (check_and_cleanup_storage 2
        [⟨"REC_a.opus", 3 * 1024 * 1024, 1⟩, ⟨"REC_b.opus", 2 * 1024 * 1024, 2⟩]) ≤ 2 ∨
      (check_and_cleanup_storage 2
        [⟨"REC_a.opus", 3 * 1024 * 1024, 1⟩, ⟨"REC_b.opus", 2 * 1024 * 1024, 2⟩]).filter
          (fun f => matchesSeg f.name) = []) :=
  ⟨by decide, storage_quota_invariant 2 _ (by decide)⟩

/-! Recovery Scan (`recover_interrupted_files`): reconciles the working
directory with the Spool Store at startup. -/

/-- Joint state of the two directories the program manages: the main
working directory `OUTPUT_DIR` and the queue subdirectory `PENDING_DIR`. -/
structure SysState where
  workDir : List FileEntry
  pendDir : List FileEntry
deriving DecidableEq, Repr

/-- Model of `Path.rename` into the pending directory: the moved file
replaces any existing entry of the same name. -/
def upsert (f : FileEntry) (d : List FileEntry) : List FileEntry :=
  f :: eraseName f.name d

/-- One iteration of the recovery loop over a matching leftover file `f`:
a file strictly larger than 1024 bytes is moved into the pending directory,
a smaller one is unlinked. -/
def recoverOne (st : SysState) (f : FileEntry) : SysState :=
  if 1024 < f.size then
    ⟨eraseName f.name st.workDir, upsert f st.pendDir⟩
  else
    ⟨eraseName f.name st.workDir, st.pendDir⟩

/-- Model of `recover_interrupted_files`: process every file of the working
directory matching `REC_*.opus` (the glob snapshot is taken once), then
unlink every `*.recording` marker of the working directory. -/
def recover_interrupted_files (st : SysState) : SysState :=
  let st1 := (st.workDir.filter (fun f => matchesSeg f.name)).foldl recoverOne st
  ⟨st1.workDir.filter (fun g => !matchesMarker g.name), st1.pendDir⟩

theorem recoverOne_workDir (st : SysState) (f : FileEntry) :
    (recoverOne st f).workDir = eraseName f.name st.workDir := by
  rw [recoverOne]
  split <;> rfl

theorem foldl_recoverOne_workDir (l : List FileEntry) :
    ∀ st : SysState, (l.foldl recoverOne st).workDir =
      l.foldl (fun d f => eraseName f.name d) st.workDir := by
  induction l with
  | nil => intro st; rfl
  | cons f t ih =>
    intro st
    rw [List.foldl_cons, List.foldl_cons, ih (recoverOne st f), recoverOne_workDir]

/-- Folding name-erasure over a list that covers the names of all matching
entries removes every matching entry (names being unique). -/
theorem foldl_eraseName_no_matching (l : List FileEntry) :
    ∀ d, (d.map FileEntry.name).Nodup →
    (∀ g ∈ d, matchesSeg g.name = true → g.name ∈ l.map FileEntry.name) →
    (l.foldl (fun d f => eraseName f.name d) d).filter (fun f => matchesSeg f.name) = [] := by
  induction l with
  | nil =>
    intro d _ hcov
    refine List.filter_eq_nil_iff.mpr (fun g hg hm => ?_)
    simpa using hcov g hg hm
  | cons f t ih =>
    intro d hnd hcov
    rw [List.foldl_cons]
    refine ih (eraseName f.name d) (nodup_names_eraseName hnd) ?_
    intro g hg hm
    have := hcov g (mem_of_mem_eraseName hg) hm
    rw [List.map_cons, List.mem_cons] at this
    rcases this with heq | hmem
    · exact absurd heq (name_ne_of_mem_eraseName hnd hg)
    · exact hmem

/-- A pending file whose name none of the processed leftovers carries
survives the recovery loop. -/
theorem mem_pend_foldl_recoverOne (l : List FileEntry) :
    ∀ st : SysState, ∀ {f : FileEntry}, f ∈ st.pendDir →
    (∀ g ∈ l, g.name ≠ f.name) → f ∈ (l.foldl recoverOne st).pendDir := by
  induction l with
  | nil => intro st f hf _; exact hf
  | cons g t ih =>
    intro st f hf hne
    rw [List.foldl_cons]
    refine ih (recoverOne st g) ?_ (fun g' hg' => hne g' (List.mem_cons_of_mem g hg'))
    rw [recoverOne]
    split
    · exact List.mem_cons_of_mem g
        (mem_eraseName_of_ne hf (fun h => hne g (List.mem_cons_self g t) h.symm))
    · exact hf

/-- Every processed leftover strictly larger than 1024 bytes ends up in the
pending directory (names being unique among the processed files). -/
theorem big_mem_pend_foldl_recoverOne (l : List FileEntry) :
    ∀ st : SysState, ∀ {f : FileEntry}, f ∈ l → 1024 < f.size →
    (l.map FileEntry.name).Nodup → f ∈ (l.foldl recoverOne st).pendDir := by
  induction l with
  | nil => intro st f hf; simp at hf
  | cons g t ih =>
    intro st f hf hbig hnd
    rw [List.map_cons, List.nodup_cons] at hnd
    rw [List.foldl_cons]
    rcases List.mem_cons.mp hf with rfl | hft
    · refine mem_pend_foldl_recoverOne t (recoverOne st f) ?_ ?_
      · rw [recoverOne, if_pos hbig]
        exact List.mem_cons_self f _
      · intro g' hg' h
        exact hnd.1 (h ▸ List.mem_map_of_mem FileEntry.name hg')
    · exact ih (recoverOne st g) hft hbig hnd.2

/-- No file of at most 1024 bytes is ever added to the pending directory by
the recovery loop. -/
theorem small_not_mem_pend_foldl_recoverOne (l : List FileEntry) :
    ∀ st : SysState, ∀ {f : FileEntry}, f.size ≤ 1024 → f ∉ st.pendDir →
    f ∉ (l.foldl recoverOne st).pendDir := by
  induction l with
  | nil => intro st f _ hout; exact hout
  | cons g t ih =>
    intro st f hsm hout
    rw [List.foldl_cons]
    refine ih (recoverOne st g) hsm ?_
    rw [recoverOne]
    split
    · intro hmem
      rcases List.mem_cons.mp hmem with rfl | hmem'
      · omega
      · exact hout (mem_of_mem_eraseName hmem')
    · exact hout

/-- After Recovery Scan no file matching the segment pattern remains in the
working directory. -/
theorem recover_workDir_no_segs (st : SysState)
    (hnd : (st.workDir.map FileEntry.name).Nodup) :
    (recover_interrupted_files st).workDir.filter (fun f => matchesSeg f.name) = [] := by
  simp only [recover_interrupted_files]
  have hw : ((st.workDir.filter (fun f => matchesSeg f.name)).foldl recoverOne st).workDir.filter
      (fun f => matchesSeg f.name) = [] := by
    rw [foldl_recoverOne_workDir]
    refine foldl_eraseName_no_matching _ st.workDir hnd ?_
    intro g hg hm
    exact List.mem_map_of_mem FileEntry.name (List.mem_filter.mpr ⟨hg, hm⟩)
  have hsub := List.Sublist.filter (fun f => matchesSeg f.name)
    (List.filter_sublist (p := fun g => !matchesMarker g.name)
      ((st.workDir.filter (fun f => matchesSeg f.name)).foldl recoverOne st).workDir)
  rw [hw] at hsub
  exact List.sublist_nil.mp hsub

/-- After Recovery Scan no `*.recording` marker remains in the working
directory. -/
theorem recover_workDir_no_markers (st : SysState) :
    (recover_interrupted_files st).workDir.filter (fun f => matchesMarker f.name) = [] := by
  simp only [recover_interrupted_files]
  rw [List.filter_filter]
  simp

/-- Recovery Scan of a state with no matching leftovers only clears the
markers of the working directory. -/
theorem recover_eq_of_no_segs (r : SysState)
    (h : r.workDir.filter (fun f => matchesSeg f.name) = []) :
    recover_interrupted_files r =
      ⟨r.workDir.filter (fun g => !matchesMarker g.name), r.pendDir⟩ := by
  simp only [recover_interrupted_files, h, List.foldl_nil]

/-- C6.  Recovery Scan classification: with pairwise-distinct names in the
working directory, (i) every matching leftover strictly larger than the
1 KiB minimum-viability threshold is moved into the Spool Store, (ii) no
file of at most 1 KiB is ever added to the Spool Store, (iii) no matching
leftover remains in the working directory, (iv) every `.recording` marker
is gone; and (v) concretely, given a 2 KB leftover, a 500 B leftover and a
marker, the 2 KB file ends up in the Spool Store, the 500 B file is gone
and the marker is gone. -/
theorem recovery_scan_classification (st : SysState)
    (hnd : (st.workDir.map FileEntry.name).Nodup) :
    (∀ f ∈ st.workDir, matchesSeg f.name = true → 1024 < f.size →
      f ∈ (recover_interrupted_files st).pendDir) ∧
    (∀ f : FileEntry, f.size ≤ 1024 → f ∉ st.pendDir →
      f ∉ (recover_interrupted_files st).pendDir) ∧
    (recover_interrupted_files st).workDir.filter (fun f => matchesSeg f.name) = [] ∧
    (recover_interrupted_files st).workDir.filter (fun f => matchesMarker f.name) = [] ∧
    recover_interrupted_files
      ⟨[⟨"REC_20250101_000000.opus", 2048, 5⟩, ⟨"REC_20250102_000000.opus", 500, 6⟩,
        ⟨"REC_20250101_000000.opus.recording", 30, 7⟩], []⟩ =
      ⟨[], [⟨"REC_20250101_000000.opus", 2048, 5⟩]⟩ := by
  refine ⟨?_, ?_, recover_workDir_no_segs st hnd, recover_workDir_no_markers st, by decide⟩
  · intro f hf hm hbig
    simp only [recover_interrupted_files]
    refine big_mem_pend_foldl_recoverOne _ st (List.mem_filter.mpr ⟨hf, hm⟩) hbig ?_
    exact List.Nodup.sublist
      (List.Sublist.map FileEntry.name (List.filter_sublist st.workDir)) hnd
  · intro f hsm hout
    simp only [recover_interrupted_files]
    exact small_not_mem_pend_foldl_recoverOne _ st hsm hout

/-- Witness for C6 at the concrete scenario state. -/
theorem recovery_scan_classification_witness :
    ((([⟨"REC_20250101_000000.opus", 2048, 5⟩, ⟨"REC_20250102_000000.opus", 500, 6⟩,
        ⟨"REC_20250101_000000.opus.recording", 30, 7⟩] :
          List FileEntry).map FileEntry.name).Nodup) ∧
    (recover_interrupted_files
      ⟨[⟨"REC_20250101_000000.opus", 2048, 5⟩, ⟨"REC_20250102_000000.opus", 500, 6⟩,
        ⟨"REC_20250101_000000.opus.recording", 30, 7⟩], []⟩).workDir.filter
          (fun f => matchesSeg f.name) = [] :=
  ⟨by decide,
    (recovery_scan_classification
      ⟨[⟨"REC_20250101_000000.opus", 2048, 5⟩, ⟨"REC_20250102_000000.opus", 500, 6⟩,
        ⟨"REC_20250101_000000.opus.recording", 30, 7⟩], []⟩ (by decide)).2.2.1⟩

/-- C7.  Recovery Scan is idempotent: with pairwise-distinct names in the
working directory, running it a second time with no intervening file
creation changes nothing — the second run moves no file, deletes no file,
and returns the state exactly as the first run left it. -/
theorem recovery_scan_idempotent (st : SysState)
    (hnd : (st.workDir.map FileEntry.name).Nodup) :
    recover_interrupted_files (recover_interrupted_files st) =
      recover_interrupted_files st := by
  rw [recover_eq_of_no_segs (recover_interrupted_files st) (recover_workDir_no_segs st hnd)]
  have hmark : (recover_interrupted_files st).workDir.filter
      (fun g => !matchesMarker g.name) = (recover_interrupted_files st).workDir := by
    simp only [recover_interrupted_files]
    rw [List.filter_filter]
    simp
  rw [hmark]

/-- Witness for C7 at a concrete state. -/
theorem recovery_scan_idempotent_witness :
    ((([⟨"REC_a.opus", 2048, 1⟩, ⟨"tiny.recording", 4, 2⟩, ⟨"arec.log", 99, 3⟩] :
        List FileEntry).map FileEntry.name).Nodup) ∧
    recover_interrupted_files (recover_interrupted_files
      ⟨[⟨"REC_a.opus", 2048, 1⟩, ⟨"tiny.recording", 4, 2⟩, ⟨"arec.log", 99, 3⟩],
        [⟨"REC_old.opus", 5000, 0⟩]⟩) =
      recover_interrupted_files
        ⟨[⟨"REC_a.opus", 2048, 1⟩, ⟨"tiny.recording", 4, 2⟩, ⟨"arec.log", 99, 3⟩],
          [⟨"REC_old.opus", 5000, 0⟩]⟩ :=
  ⟨by decide,
    recovery_scan_idempotent
      ⟨[⟨"REC_a.opus", 2048, 1⟩, ⟨"tiny.recording", 4, 2⟩, ⟨"arec.log", 99, 3⟩],
        [⟨"REC_old.opus", 5000, 0⟩]⟩ (by decide)⟩

/-! Uploader (`upload_to_cloud`) and Connectivity Monitor
(`check_internet_access`, `check_network_speed`). -/

/-- Observable side effects of one `upload_to_cloud` call: number of
connectivity probes run (ping and `rclone about`), number of transfer
attempts (`rclone copy` invocations), the delays slept between attempts in
order, and whether the local segment file was deleted. -/
structure Effects where
  probes : Nat
  transfers : Nat
  sleeps : List Nat
  deletedFile : Bool
deriving DecidableEq, Repr

def NETWORK_SPEED_THRESHOLD : Nat := 100

/-- Model of `check_internet_access`: with the cloud service configured as
`"none"` it returns true at once; otherwise it pings 8.8.8.8 and, on
success, probes the cloud remote with `rclone about`; both must succeed.
The second component counts the external probes actually run. -/
def check_internet_access (service : String) (pingOk aboutOk : Bool) : Bool × Nat :=
  if service == "none" then (true, 0)
  else if !pingOk then (false, 1)
  else (aboutOk, 2)

/-- Model of `check_network_speed`: a failed ping or an unparsable average
round-trip time (modelled as `none`) yields `"unknown"`; otherwise the
average is compared against `NETWORK_SPEED_THRESHOLD` (the Python value is
a float; we model the measured average in integral milliseconds, which
preserves the branch structure). -/
def check_network_speed (pingOk : Bool) (avgMs : Option Nat) : String :=
  if !pingOk then "unknown"
  else
    match avgMs with
    | none => "unknown"
    | some avg => if NETWORK_SPEED_THRESHOLD < avg then "slow" else "fast"

/-- Environment of one `upload_to_cloud` call: the configured service, the
outcome of the file-existence check, the outcomes of the connectivity
probes, the network classification returned by `check_network_speed`, and
the outcome of the `rclone copy` attempt number `i` (1-based). -/
structure UploadEnv where
  cloudService : String
  fileOnDisk : Bool
  pingOk : Bool
  cloudAboutOk : Bool
  netClass : String
  transferOk : Nat → Bool

/-- Retry loop of `upload_to_cloud` over the attempt numbers
`range(1, max_retries + 1)`: on a successful attempt return true (deleting
the file when `DELETE_AFTER_UPLOAD` is set); on a failed attempt sleep
`retry_delay` seconds unless it was the last attempt. -/
def uploadLoop (ok : Nat → Bool) (retryDelay maxRetries : Nat) (delAfter : Bool) :
    List Nat → Bool × Effects
  | [] => (false, ⟨0, 0, [], false⟩)
  | a :: rest =>
    if ok a then (true, ⟨0, 1, [], delAfter⟩)
    else
      let r := uploadLoop ok retryDelay maxRetries delAfter rest
      (r.1, ⟨0, r.2.transfers + 1,
        (if a < maxRetries then [retryDelay] else []) ++ r.2.sleeps, r.2.deletedFile⟩)

/-- Model of `upload_to_cloud`.  With service `"none"` it succeeds at once;
otherwise it fails fast on a missing file or an unreachable network, and
then retries the transfer with the classification-derived ceiling and
delay: 5 attempts / 600 s when `check_network_speed` said `"slow"`, and 15
attempts / 300 s otherwise (i.e. for `"fast"` and `"unknown"` alike). -/
def upload_to_cloud (env : UploadEnv) : Bool × Effects :=
  if env.cloudService == "none" then (true, ⟨0, 0, [], false⟩)
  else if !env.fileOnDisk then (false, ⟨0, 0, [], false⟩)
  else
    let chk := check_internet_access env.cloudService env.pingOk env.cloudAboutOk
    if !chk.1 then (false, ⟨chk.2, 0, [], false⟩)
    else
      let maxRetries := if env.netClass == "slow" then SLOW_NETWORK_MAX_RETRIES
        else MAX_RETRIES
      let retryDelay := if env.netClass == "slow" then SLOW_NETWORK_RETRY_DELAY
        else RETRY_DELAY
      let r := uploadLoop env.transferOk retryDelay maxRetries DELETE_AFTER_UPLOAD
        (List.range' 1 maxRetries)
      (r.1, ⟨chk.2, r.2.transfers, r.2.sleeps, r.2.deletedFile⟩)

/-- Behaviour of the retry loop when every attempt fails: no success, one
transfer per listed attempt, a delay slept after every non-final attempt,
and no file deletion. -/
theorem uploadLoop_all_fail {ok : Nat → Bool} (h : ∀ i, ok i = false)
    (retryDelay maxRetries : Nat) (delAfter : Bool) (l : List Nat) :
    uploadLoop ok retryDelay maxRetries delAfter l =
      (false, ⟨0, l.length,
        List.replicate ((l.filter (fun a => decide (a < maxRetries))).length) retryDelay,
        false⟩) := by
  induction l with
  | nil => rfl
  | cons a t ih =>
    by_cases hlt : a < maxRetries
    · simp [uploadLoop, h a, ih, hlt, List.filter_cons, List.replicate_succ]
    · simp [uploadLoop, h a, ih, hlt, List.filter_cons]

/-- C3.  Retry ceilings of the Uploader: for an existing segment over a
reachable network with every transfer attempt failing, `upload_to_cloud`
makes exactly 5 attempts with a 600-second delay between consecutive
attempts under a `"slow"` classification, and exactly 15 attempts with a
300-second delay under `"fast"` or `"unknown"` (the two are treated
identically). -/
theorem upload_retry_ceilings (env : UploadEnv)
    (hsvc : env.cloudService ≠ "none") (hex : env.fileOnDisk = true)
    (hnet : (check_internet_access env.cloudService env.pingOk env.cloudAboutOk).1 = true)
    (hfail : ∀ i, env.transferOk i = false) :
    (env.netClass = "slow" →
      (upload_to_cloud env).2.transfers = 5 ∧
      (upload_to_cloud env).2.sleeps = List.replicate 4 600) ∧
    ((env.netClass = "fast" ∨ env.netClass = "unknown") →
      (upload_to_cloud env).2.transfers = 15 ∧
      (upload_to_cloud env).2.sleeps = List.replicate 14 300) := by
  have hsvcb : (env.cloudService == "none") = false := beq_eq_false_iff_ne.mpr hsvc
  constructor
  · intro hslow
    have hb : (env.netClass == "slow") = true := beq_iff_eq.mpr hslow
    rw [upload_to_cloud]
    simp only [hsvcb, Bool.false_eq_true, if_false, hex, Bool.not_true, hnet, hb, if_true,
      uploadLoop_all_fail hfail]
    constructor
    · decide
    · norm_num [SLOW_NETWORK_MAX_RETRIES, SLOW_NETWORK_RETRY_DELAY, List.range']
  · intro hfastish
    have hb : (env.netClass == "slow") = false := by
      rcases hfastish with h | h <;> rw [beq_eq_false_iff_ne, h] <;> decide
    rw [upload_to_cloud]
    simp only [hsvcb, Bool.false_eq_true, if_false, hex, Bool.not_true, hnet, hb,
      uploadLoop_all_fail hfail]
    constructor
    · decide
    · norm_num [MAX_RETRIES, RETRY_DELAY, List.range']

/-- Witness for C3 under a forced `"slow"` classification. -/
theorem upload_retry_ceilings_witness :
    (("yandex" : String) ≠ "none") ∧
    ((upload_to_cloud ⟨"yandex", true, true, true, "slow", fun _ => false⟩).2.transfers = 5 ∧
      (upload_to_cloud ⟨"yandex", true, true, true, "slow", fun _ => false⟩).2.sleeps =
        List.replicate 4 600) :=
  ⟨by decide,
    (upload_retry_ceilings ⟨"yandex", true, true, true, "slow", fun _ => false⟩
      (by decide) rfl (by decide) (fun _ => rfl)).1 rfl⟩

/-- C8.  Exhausted retry leaves the segment alone: when every
classification-derived attempt fails, `upload_to_cloud` returns failure and
the segment file is not deleted (the model records no move or marker
operation either — the code has none). -/
theorem upload_exhaustion_keeps_segment (env : UploadEnv)
    (hsvc : env.cloudService ≠ "none") (hex : env.fileOnDisk = true)
    (hnet : (check_internet_access env.cloudService env.pingOk env.cloudAboutOk).1 = true)
    (hfail : ∀ i, env.transferOk i = false) :
    (upload_to_cloud env).1 = false ∧ (upload_to_cloud env).2.deletedFile = false := by
  have hsvcb : (env.cloudService == "none") = false := beq_eq_false_iff_ne.mpr hsvc
  rw [upload_to_cloud]
  simp only [hsvcb, Bool.false_eq_true, if_false, hex, Bool.not_true, hnet,
    uploadLoop_all_fail hfail]
  by_cases hb : (env.netClass == "slow") = true <;> simp [hb]

/-- Witness for C8 under an `"unknown"` classification. -/
theorem upload_exhaustion_keeps_segment_witness :
    (("yandex" : String) ≠ "none") ∧
    ((upload_to_cloud ⟨"yandex", true, true, true, "unknown", fun _ => false⟩).1 = false ∧
      (upload_to_cloud
        ⟨"yandex", true, true, true, "unknown", fun _ => false⟩).2.deletedFile = false) :=
  ⟨by decide,
    upload_exhaustion_keeps_segment ⟨"yandex", true, true, true, "unknown", fun _ => false⟩
      (by decide) rfl (by decide) (fun _ => rfl)⟩

/-- C10.  Service `"none"` short-circuits: `upload_to_cloud` returns
success immediately for every input — no existence check, no connectivity
probe, no transfer attempt, no sleep, no file deletion even though
`DELETE_AFTER_UPLOAD` is configured — and `check_internet_access` returns
true having run zero probes. -/
theorem cloud_none_shortcircuit (env : UploadEnv) (h : env.cloudService = "none") :
    upload_to_cloud env = (true, ⟨0, 0, [], false⟩) ∧
    check_internet_access env.cloudService env.pingOk env.cloudAboutOk = (true, 0) := by
  constructor
  · rw [upload_to_cloud]
    simp [h]
  · rw [check_internet_access]
    simp [h]

/-- Witness for C10: the file is absent, the network is down, the transfer
would fail — success is returned all the same with zero effects. -/
theorem cloud_none_shortcircuit_witness :
    upload_to_cloud ⟨"none", false, false, false, "unknown", fun _ => false⟩ =
      (true, ⟨0, 0, [], false⟩) ∧
    check_internet_access "none" false false = (true, 0) :=
  cloud_none_shortcircuit ⟨"none", false, false, false, "unknown", fun _ => false⟩ rfl

/-! Batch processing (`process_upload_queue`) and the main loop. -/

/-- Environment of one `process_upload_queue` call; `transferOk` gives the
outcome of attempt `i` of the transfer of the named file. -/
structure QueueEnv where
  cloudService : String
  pingOk : Bool
  cloudAboutOk : Bool
  netClass : String
  transferOk : String → Nat → Bool

/-- Result of one `process_upload_queue` call: the resulting pending
directory, the number of transfer attempts performed, and the backlog count
logged by the no-internet branch (none when that branch was not taken). -/
structure QueueResult where
  pend : List FileEntry
  transfers : Nat
  backlogLogged : Option Nat
deriving Repr

/-- Worker pool of `process_upload_queue`: one `upload_to_cloud` per
selected file.  The Python code runs the uploads in joined daemon threads;
each upload touches only its own file, so the pool is modelled by running
them in order.  A file is globbed from the pending directory, hence it
exists when its upload starts. -/
def runUploads (env : QueueEnv) : List FileEntry → List FileEntry → List FileEntry × Nat
  | pend, [] => (pend, 0)
  | pend, f :: rest =>
    let r := upload_to_cloud ⟨env.cloudService, true, env.pingOk, env.cloudAboutOk,
      env.netClass, env.transferOk f.name⟩
    let pend2 := if r.2.deletedFile then eraseName f.name pend else pend
    let rr := runUploads env pend2 rest
    (rr.1, r.2.transfers + rr.2)

/-- Model of `process_upload_queue`: return at once when the service is
`"none"`; when the network is unreachable, log the backlog count and
return; otherwise run the inline storage cleanup, select the 10
most-recently-modified matching files, and upload the first
`max_workers` of them (1 worker when `"slow"`, else
`MAX_PARALLEL_UPLOADS`). -/
def process_upload_queue (env : QueueEnv) (pend : List FileEntry) : QueueResult :=
  if env.cloudService == "none" then ⟨pend, 0, none⟩
  else if !(check_internet_access env.cloudService env.pingOk env.cloudAboutOk).1 then
    ⟨pend, 0, some ((pend.filter (fun f => matchesSeg f.name)).length)⟩
  else
    let pend1 :=
      if MAX_STORAGE_MB < dir_size_mb pend then
        evictLoop MAX_STORAGE_MB pend (sortByMtime (pend.filter (fun f => matchesSeg f.name)))
      else pend
    let files := (sortByMtimeDesc (pend1.filter (fun f => matchesSeg f.name))).take 10
    let maxWorkers := if env.netClass == "slow" then 1 else MAX_PARALLEL_UPLOADS
    let rr := runUploads env pend1 (files.take maxWorkers)
    ⟨rr.1, rr.2, none⟩

/-- C5.  Unreachable network is a no-op for the queue: when the
reachability check is false, `process_upload_queue` logs the number of
queued matching segments and returns with zero transfer attempts and the
pending directory exactly as it was. -/
theorem process_queue_unreachable_frame (env : QueueEnv) (pend : List FileEntry)
    (h : (check_internet_access env.cloudService env.pingOk env.cloudAboutOk).1 = false) :
    process_upload_queue env pend =
      ⟨pend, 0, some ((pend.filter (fun f => matchesSeg f.name)).length)⟩ := by
  by_cases hb : (env.cloudService == "none") = true
  · exfalso
    rw [check_internet_access] at h
    simp [hb] at h
  · have hb' : (env.cloudService == "none") = false := by
      simpa using hb
    rw [process_upload_queue]
    simp [hb', h]

/-- Witness for C5: a dead ping with two queued files, one matching. -/
theorem process_queue_unreachable_frame_witness :
    ((check_internet_access "yandex" false true).1 = false) ∧
    process_upload_queue ⟨"yandex", false, true, "fast", fun _ _ => true⟩
        [⟨"REC_a.opus", 2048, 1⟩, ⟨"notes.txt", 5, 2⟩] =
      ⟨[⟨"REC_a.opus", 2048, 1⟩, ⟨"notes.txt", 5, 2⟩], 0,
        some (([⟨"REC_a.opus", 2048, 1⟩, ⟨"notes.txt", 5, 2⟩] :
          List FileEntry).filter (fun f => matchesSeg f.name)).length⟩ :=
  ⟨by decide,
    process_queue_unreachable_frame ⟨"yandex", false, true, "fast", fun _ _ => true⟩
      [⟨"REC_a.opus", 2048, 1⟩, ⟨"notes.txt", 5, 2⟩] (by decide)⟩

/-- Model of `in_recording_schedule`: always true when the schedule is
disabled, else true exactly when the current hour lies in
`[start_hour, end_hour)`. -/
def in_recording_schedule (enabled : Bool) (startH endH hour : Nat) : Bool :=
  if !enabled then true
  else decide (startH ≤ hour) && decide (hour < endH)

/-- Which actions one iteration of `main_loop` performs. -/
structure IterTrace where
  ranStorageGuard : Bool
  sleptOutsideSchedule : Bool
  spawnedQueueProcessing : Bool
  startedRecording : Bool
deriving DecidableEq, Repr

/-- Model of one iteration of `main_loop`: when the schedule is enabled and
the current hour is outside the recording window, the iteration logs,
sleeps 60 s and continues — skipping everything else.  Otherwise it spawns
queue processing when the connectivity-check interval elapsed and the
service is not `"none"`, runs `check_and_cleanup_storage`, and records.
`connectivityDue` and `service` stand for the connectivity-related state,
on which nothing but the spawn decision depends. -/
def mainLoopIter (enabled : Bool) (startH endH hour : Nat) (connectivityDue : Bool)
    (service : String) : IterTrace :=
  if enabled && !(in_recording_schedule enabled startH endH hour) then
    ⟨false, true, false, false⟩
  else
    ⟨true, false, connectivityDue && !(service == "none"), true⟩

/-- Counterexample to C4 as stated: with the recording schedule enabled
(the shipped configuration, hours 6–22) an iteration at hour 23 skips
`check_and_cleanup_storage` entirely. -/
theorem storage_guard_skipped_outside_schedule :
    (mainLoopIter true RECORDING_START_HOUR RECORDING_END_HOUR 23 true
      "yandex").ranStorageGuard = false := by
  decide

/-- C4 (amended).  `check_and_cleanup_storage` runs on every main-loop
iteration that passes the schedule gate — the schedule disabled, or the
current hour inside the recording window — and on those iterations it runs
independently of network reachability: the conclusion holds for every
value of the connectivity-check timer and of the configured service.
Iterations outside the recording window sleep and skip it. -/
theorem storage_guard_runs_when_schedule_open (enabled : Bool)
    (startH endH hour : Nat) (due : Bool) (service : String)
    (h : enabled = false ∨ (startH ≤ hour ∧ hour < endH)) :
    (mainLoopIter enabled startH endH hour due service).ranStorageGuard = true := by
  rw [mainLoopIter]
  rcases h with h | h
  · simp [h]
  · simp [in_recording_schedule, h.1, h.2]

/-- Witness for C4 (amended) inside the recording window. -/
theorem storage_guard_runs_when_schedule_open_witness :
    (mainLoopIter true RECORDING_START_HOUR RECORDING_END_HOUR 12 false
      "none").ranStorageGuard = true :=
  storage_guard_runs_when_schedule_open true RECORDING_START_HOUR RECORDING_END_HOUR 12
    false "none" (Or.inr ⟨by decide, by decide⟩)

end ArecP
